import Mathlib

/-!
Verification of the ascii-art repository's core conversion pipeline.

The TypeScript sources are embedded shallowly:
* `src/core/asciiMapper.ts` (`ASCIIMapper.canvasToASCII`, `luminanceToChar`,
  `calculateDimensions`) — the raster-to-character pipeline;
* `src/components/Ascii3D.tsx` (`getCharWeight`, `createASCIIText3D`, the
  effect cleanup) — the per-character weighted 3D build and its caches;
* `src/core/geometryBuilder.ts` (`GeometryBuilder.createASCIIPoints`) — the
  point-cloud sampler.

JavaScript `number` arithmetic is modelled by exact rationals (`ℚ`);
`Math.floor` on non-negative integer ratios is `ℕ` division.  A JS string
index that is out of range yields `undefined`; lookups are therefore modelled
with `Option`.  `Math.sqrt` is modelled by the computable `Rat.sqrt` (exact on
perfect squares); no theorem below depends on the values of the square root,
only on where and on which arguments it is applied.
-/

/-- An RGBA pixel buffer, as obtained from `ctx.getImageData`: `data` is the
flat row-major `Uint8ClampedArray`, four bytes per pixel. -/
structure Canvas where
  width : ℕ
  height : ℕ
  data : ℕ → ℕ

/-- `pixels[(py * canvas.width + px) * 4 + c]` for channel `c` (0=R,1=G,2=B,3=A). -/
def Canvas.pixel (cv : Canvas) (px py c : ℕ) : ℕ :=
  cv.data ((py * cv.width + px) * 4 + c)

/-- `ASCIIMapperOptions`; a `none` field models an absent (`undefined`)
property, for which the destructuring defaults of `canvasToASCII` apply.
An explicitly supplied empty character set is `some []`, which — exactly as
in JS, where `''` is a present property — does **not** trigger the default. -/
structure ASCIIMapperOptions where
  width : Option ℕ := none
  height : Option ℕ := none
  characterSet : Option (List Char) := none
  invert : Option Bool := none
  maintainAspectRatio : Option Bool := none
  contrast : Option ℚ := none
  edgeEnhance : Option Bool := none

/-- Return value of `canvasToASCII`. -/
structure ASCIIResult where
  ascii : String
  width : ℕ
  height : ℕ
deriving DecidableEq

namespace ASCIIMapper

/-- `CHARSET_STANDARD = '@&#*+=-. '`, the default ramp (darkest to lightest). -/
def CHARSET_STANDARD : List Char := "@&#*+=-. ".toList

/-- Destructuring default `width = 80`. -/
def resolvedWidth (o : ASCIIMapperOptions) : ℕ := o.width.getD 80

/-- Destructuring default `characterSet = this.CHARSET_STANDARD`. -/
def resolvedCharacterSet (o : ASCIIMapperOptions) : List Char :=
  o.characterSet.getD CHARSET_STANDARD

/-- Destructuring default `invert = false`. -/
def resolvedInvert (o : ASCIIMapperOptions) : Bool := o.invert.getD false

/-- Destructuring default `maintainAspectRatio = true`. -/
def resolvedMaintainAspectRatio (o : ASCIIMapperOptions) : Bool :=
  o.maintainAspectRatio.getD true

/-- Destructuring default `contrast = 1.0`. -/
def resolvedContrast (o : ASCIIMapperOptions) : ℚ := o.contrast.getD 1

/-- Destructuring default `edgeEnhance = false`. -/
def resolvedEdgeEnhance (o : ASCIIMapperOptions) : Bool := o.edgeEnhance.getD false

/-- `targetWidth`: since `width` always receives the destructuring default 80,
the `targetWidth === undefined` branch of the aspect-ratio block is dead code
and `targetWidth` is simply the resolved width. -/
def targetWidth (_cv : Canvas) (o : ASCIIMapperOptions) : ℕ := resolvedWidth o

/-- `targetHeight` (asciiMapper lines 239–259): if `maintainAspectRatio` and no
height was given, `targetHeight = Math.floor((targetWidth * canvas.height) /
(canvas.width * 2))`.  Afterwards `if (!targetHeight)` — which fires both for
an undefined and for a **zero** height — replaces it by
`Math.floor(targetWidth * 0.5)`. -/
def targetHeight (cv : Canvas) (o : ASCIIMapperOptions) : ℕ :=
  let w := resolvedWidth o
  let t : Option ℕ :=
    if resolvedMaintainAspectRatio o = true ∧ o.height = none then
      some ((w * cv.height) / (cv.width * 2))
    else o.height
  match t with
  | none => w / 2
  | some n => if n = 0 then w / 2 else n

/-- `ASCIIMapper.calculateDimensions` (lines 388–419).  JS truthiness: a
width/height of `0` behaves like an absent argument. -/
def truthy (v : Option ℕ) : Bool := v.getD 0 ≠ 0

/-- `calculateDimensions(sourceWidth, sourceHeight, targetWidth?, targetHeight?)`. -/
def calculateDimensions (sw sh : ℕ) (tw th : Option ℕ) : ℕ × ℕ :=
  if truthy tw ∧ ¬ truthy th then (tw.getD 0, (tw.getD 0 * sh) / (sw * 2))
  else if truthy th ∧ ¬ truthy tw then ((th.getD 0 * sw * 2) / sh, th.getD 0)
  else if truthy tw ∧ truthy th then (tw.getD 0, th.getD 0)
  else (80, (80 * sh) / (sw * 2))

/-- `startX = Math.floor(x * stepX)` with `stepX = canvas.width / targetWidth`;
exact over ℚ this is the ℕ division `(x * width) / tw`. -/
def cellStartX (cv : Canvas) (tw x : ℕ) : ℕ := x * cv.width / tw

/-- `endX = Math.min(Math.floor((x + 1) * stepX), canvas.width)`. -/
def cellEndX (cv : Canvas) (tw x : ℕ) : ℕ := min ((x + 1) * cv.width / tw) cv.width

/-- `startY = Math.floor(y * stepY)` with `stepY = canvas.height / targetHeight`. -/
def cellStartY (cv : Canvas) (th y : ℕ) : ℕ := y * cv.height / th

/-- `endY = Math.min(Math.floor((y + 1) * stepY), canvas.height)`. -/
def cellEndY (cv : Canvas) (th y : ℕ) : ℕ := min ((y + 1) * cv.height / th) cv.height

/-- The source rectangle sampled for target cell `(x, y)` (the two nested
`for (py …) for (px …)` loops of the first pass). -/
def cellBox (cv : Canvas) (tw th x y : ℕ) : Finset (ℕ × ℕ) :=
  Finset.Ico (cellStartX cv tw x) (cellEndX cv tw x) ×ˢ
    Finset.Ico (cellStartY cv th y) (cellEndY cv th y)

/-- `sampleCount`. -/
def cellCount (cv : Canvas) (tw th x y : ℕ) : ℕ := (cellBox cv tw th x y).card

/-- `totalR` / `totalG` / `totalB` / `totalA` for channel `c`. -/
def cellSum (cv : Canvas) (tw th x y c : ℕ) : ℚ :=
  ∑ p ∈ cellBox cv tw th x y, (cv.pixel p.1 p.2 c : ℚ)

/-- `const r = sampleCount > 0 ? totalR / sampleCount : 255;` (same for G, B). -/
def cellChan (cv : Canvas) (tw th x y c : ℕ) : ℚ :=
  if 0 < cellCount cv tw th x y then
    cellSum cv tw th x y c / (cellCount cv tw th x y : ℚ)
  else 255

/-- `const a = sampleCount > 0 ? (totalA / sampleCount) / 255 : 1;`. -/
def cellA (cv : Canvas) (tw th x y : ℕ) : ℚ :=
  if 0 < cellCount cv tw th x y then
    (cellSum cv tw th x y 3 / (cellCount cv tw th x y : ℚ)) / 255
  else 1

/-- Weighted luminance plus white compositing, before normalization:
`luminance = (0.299r + 0.587g + 0.114b) * a`, then
`if (a < 1) luminance = luminance + 255 * (1 - a)`. -/
def cellLumPre (cv : Canvas) (tw th x y : ℕ) : ℚ :=
  let a := cellA cv tw th x y
  let l0 := (0.299 * cellChan cv tw th x y 0 + 0.587 * cellChan cv tw th x y 1 +
      0.114 * cellChan cv tw th x y 2) * a
  if a < 1 then l0 + 255 * (1 - a) else l0

/-- The value stored into `luminanceMap[y * targetWidth + x]` by the first
pass: normalized, contrast-adjusted (`if (contrast !== 1.0)`, clamped), and
optionally inverted. -/
def cellLuminance (cv : Canvas) (o : ASCIIMapperOptions) (x y : ℕ) : ℚ :=
  let tw := targetWidth cv o
  let th := targetHeight cv o
  let l2 := cellLumPre cv tw th x y / 255
  let l3 :=
    if resolvedContrast o ≠ 1 then
      max 0 (min 1 ((l2 - 0.5) * resolvedContrast o + 0.5))
    else l2
  if resolvedInvert o then 1 - l3 else l3

/-- The `luminanceMap` `Float32Array`, addressed by flat index `i = y*tw + x`.
All reads performed by the second pass go through this first-pass map; no
enhanced value is ever written back into it. -/
def luminanceMap (cv : Canvas) (o : ASCIIMapperOptions) (i : ℕ) : ℚ :=
  cellLuminance cv o (i % targetWidth cv o) (i / targetWidth cv o)

/-- Second pass (lines 331–349): Sobel-like edge enhancement on interior
cells when `edgeEnhance` is set; all neighbor reads are from `luminanceMap`. -/
def displayLuminance (cv : Canvas) (o : ASCIIMapperOptions) (x y : ℕ) : ℚ :=
  let tw := targetWidth cv o
  let th := targetHeight cv o
  let idx := y * tw + x
  let l := luminanceMap cv o idx
  if resolvedEdgeEnhance o = true ∧ 0 < x ∧ x < tw - 1 ∧ 0 < y ∧ y < th - 1 then
    let gx := -luminanceMap cv o (idx - tw - 1) + luminanceMap cv o (idx - tw + 1)
      - 2 * luminanceMap cv o (idx - 1) + 2 * luminanceMap cv o (idx + 1)
      - luminanceMap cv o (idx + tw - 1) + luminanceMap cv o (idx + tw + 1)
    let gy := -luminanceMap cv o (idx - tw - 1) - 2 * luminanceMap cv o (idx - tw)
      - luminanceMap cv o (idx - tw + 1) + luminanceMap cv o (idx + tw - 1)
      + 2 * luminanceMap cv o (idx + tw) + luminanceMap cv o (idx + tw + 1)
    let edgeMagnitude := Rat.sqrt (gx * gx + gy * gy)
    max 0 (min 1 (l - edgeMagnitude * 0.5))
  else l

/-- The index computed by `luminanceToChar`:
`Math.min(Math.floor(luminance * (characterSet.length - 1)), characterSet.length - 1)`.
For an empty set, `length - 1` is `-1` in JS, hence the `ℤ`-valued model. -/
def luminanceCharIndex (luminance : ℚ) (characterSet : List Char) : ℤ :=
  min ⌊luminance * ((characterSet.length : ℚ) - 1)⌋ ((characterSet.length : ℤ) - 1)

/-- `luminanceToChar` (lines 368–371).  `characterSet[i]` is `undefined`
(`none`) when the index is out of range. -/
def luminanceToChar (luminance : ℚ) (characterSet : List Char) : Option Char :=
  if luminanceCharIndex luminance characterSet < 0 then none
  else characterSet.get? (luminanceCharIndex luminance characterSet).toNat

/-- The character emitted for grid cell `(x, y)`. -/
def cellChar (cv : Canvas) (o : ASCIIMapperOptions) (x y : ℕ) : Option Char :=
  luminanceToChar (displayLuminance cv o x y) (resolvedCharacterSet o)

/-- `ascii += char`: JS string concatenation renders an `undefined` lookup as
the text `undefined`. -/
def charText : Option Char → String
  | some c => String.singleton c
  | none => "undefined"

/-- The accumulated `ascii` string: rows in order, each followed by `'\n'`. -/
def asciiString (cv : Canvas) (o : ASCIIMapperOptions) : String :=
  String.join ((List.range (targetHeight cv o)).map (fun y =>
    String.join ((List.range (targetWidth cv o)).map (fun x =>
      charText (cellChar cv o x y))) ++ "\n"))

/-- `ASCIIMapper.canvasToASCII` (lines 220–363). -/
def canvasToASCII (cv : Canvas) (o : ASCIIMapperOptions) : ASCIIResult :=
  { ascii := asciiString cv o, width := targetWidth cv o, height := targetHeight cv o }

end ASCIIMapper

namespace ASCIIMapper

/-- For the empty character set the computed index is `min ⌊-l⌋ (-1) ≤ -1`,
so the lookup is always out of range (`undefined`). -/
lemma luminanceToChar_nil (l : ℚ) : luminanceToChar l [] = none := by
  unfold luminanceToChar
  rw [if_pos]
  exact lt_of_le_of_lt (min_le_right _ _) (by simp [luminanceCharIndex])

/-- At luminance 1 the computed index is the last index of a nonempty ramp. -/
lemma luminanceToChar_one (ramp : List Char) (h : ramp ≠ []) :
    luminanceToChar 1 ramp = ramp.getLast? := by
  have hn : 1 ≤ ramp.length := List.length_pos.mpr h
  have hidx : luminanceCharIndex 1 ramp = (ramp.length : ℤ) - 1 := by
    unfold luminanceCharIndex
    rw [one_mul]
    have : ((ramp.length : ℚ) - 1) = (((ramp.length : ℤ) - 1 : ℤ) : ℚ) := by push_cast; ring
    rw [this, Int.floor_intCast, min_self]
  unfold luminanceToChar
  rw [hidx, if_neg (by omega)]
  have htn : ((ramp.length : ℤ) - 1).toNat = ramp.length - 1 := by omega
  rw [htn, List.getLast?_eq_get?]

end ASCIIMapper

open ASCIIMapper

/-- Concrete 1×1 fully transparent canvas used by the C2 counterexample. -/
def cvC2 : Canvas := ⟨1, 1, fun _ => 0⟩

/-- Options passing the explicit empty character set. -/
def oC2 : ASCIIMapperOptions := { width := some 1, height := some 1, characterSet := some [] }

/-- C2 counterexample: with an empty ramp, `canvasToASCII` does **not** fail —
no InvalidRamp error exists anywhere in the code.  It returns a normal
`ASCIIResult`; each cell's `characterSet[...]` lookup is `undefined` and JS
`+=` renders it as the text `undefined`. -/
theorem C2_counterexample :
    canvasToASCII cvC2 oC2 = ⟨"undefined\n", 1, 1⟩ := by
  have hcell : ∀ x y, cellChar cvC2 oC2 x y = none := by
    intro x y
    unfold cellChar
    exact luminanceToChar_nil _
  show ASCIIResult.mk _ _ _ = _
  unfold asciiString
  simp only [hcell, charText]
  decide

/-- C2 amended: an empty character ramp is not rejected with an `InvalidRamp`
error (the conversion has no such failure path); instead every cell's
character lookup is out of range and resolves to `undefined` (`none`). -/
theorem C2_amended (l : ℚ) (cv : Canvas) (o : ASCIIMapperOptions) (x y : ℕ) :
    luminanceToChar l [] = none ∧
    cellChar cv { o with characterSet := some [] } x y = none := by
  refine ⟨luminanceToChar_nil l, ?_⟩
  unfold cellChar
  exact luminanceToChar_nil _

/-- C7: on a ramp of length ≥ 2 and luminance in [0,1], `luminanceToChar`
returns exactly `ramp[min(floor(l * (len-1)), len-1)]`; luminance 0 selects
index 0 (darkest) and luminance 1 selects the last index (lightest). -/
theorem C7_luminanceToChar_contract (l : ℚ) (ramp : List Char)
    (h0 : 0 ≤ l) (h1 : l ≤ 1) (h2 : 2 ≤ ramp.length) :
    luminanceToChar l ramp =
      ramp.get? (min ⌊l * ((ramp.length : ℚ) - 1)⌋ ((ramp.length : ℤ) - 1)).toNat ∧
    luminanceToChar 0 ramp = ramp.get? 0 ∧
    luminanceToChar 1 ramp = ramp.getLast? := by
  have hlen : (1 : ℚ) ≤ (ramp.length : ℚ) - 1 := by
    have : (2 : ℚ) ≤ (ramp.length : ℚ) := by exact_mod_cast h2
    linarith
  refine ⟨?_, ?_, luminanceToChar_one ramp (by intro hnil; simp [hnil] at h2)⟩
  · have hnn : 0 ≤ luminanceCharIndex l ramp := by
      refine le_min (Int.floor_nonneg.mpr (mul_nonneg h0 (by linarith))) (by omega)
    unfold luminanceToChar
    rw [if_neg (not_lt.mpr hnn)]
    rfl
  · have hidx : luminanceCharIndex 0 ramp = 0 := by
      unfold luminanceCharIndex
      rw [zero_mul, Int.floor_zero]
      exact min_eq_left (by omega)
    unfold luminanceToChar
    rw [hidx, if_neg (by omega)]
    rfl

/-- C7 witness at luminance 1/2 on the two-character ramp `@` + space. -/
theorem C7_witness :
    luminanceToChar (1/2) ['@', ' '] =
      List.get? ['@', ' ']
        (min ⌊(1/2 : ℚ) * (((['@', ' '] : List Char).length : ℚ) - 1)⌋
          (((['@', ' '] : List Char).length : ℤ) - 1)).toNat ∧
    luminanceToChar 0 ['@', ' '] = List.get? ['@', ' '] 0 ∧
    luminanceToChar 1 ['@', ' '] = List.getLast? ['@', ' '] :=
  C7_luminanceToChar_contract (1/2) ['@', ' '] (by norm_num) (by norm_num) (by norm_num)

/-- C9: for a fixed ramp the chosen character index is monotone in the
luminance over [0,1]. -/
theorem C9_index_monotone (ramp : List Char) (l1 l2 : ℚ)
    (h0 : 0 ≤ l1) (h12 : l1 ≤ l2) (h1 : l2 ≤ 1) :
    luminanceCharIndex l1 ramp ≤ luminanceCharIndex l2 ramp := by
  unfold luminanceCharIndex
  rcases Nat.eq_zero_or_pos ramp.length with hz | hp
  · have e1 : min ⌊l1 * ((ramp.length : ℚ) - 1)⌋ ((ramp.length : ℤ) - 1) = -1 := by
      rw [hz]
      push_cast
      refine min_eq_right (Int.le_floor.mpr ?_)
      push_cast
      nlinarith
    have e2 : min ⌊l2 * ((ramp.length : ℚ) - 1)⌋ ((ramp.length : ℤ) - 1) = -1 := by
      rw [hz]
      push_cast
      refine min_eq_right (Int.le_floor.mpr ?_)
      push_cast
      nlinarith
    rw [e1, e2]
  · have hq : (0 : ℚ) ≤ (ramp.length : ℚ) - 1 := by
      have : (1 : ℚ) ≤ (ramp.length : ℚ) := by exact_mod_cast hp
      linarith
    exact min_le_min (Int.floor_le_floor (mul_le_mul_of_nonneg_right h12 hq)) le_rfl

/-- C9 witness: on the standard ramp, index at 1/4 is at most index at 3/4. -/
theorem C9_witness :
    luminanceCharIndex (1/4) CHARSET_STANDARD ≤ luminanceCharIndex (3/4) CHARSET_STANDARD :=
  C9_index_monotone CHARSET_STANDARD (1/4) (3/4) (by norm_num) (by norm_num) (by norm_num)

/-- 100×100 source canvas for the C1 counterexample. -/
def cvC1 : Canvas := ⟨100, 100, fun _ => 0⟩

/-- Only `width = 80` given; aspect ratio maintained by default. -/
def oC1 : ASCIIMapperOptions := { width := some 80 }

/-- C1 counterexample: on a 100×100 source with `targetWidth = 80` the code
produces height 40 = `floor(80*100/(100*2))`, but the claimed formula
`floor(W*Sh/(Sw*CHAR_ASPECT))` gives at least 145 for every
`CHAR_ASPECT ∈ [0.5, 0.55]` — dividing by `CHAR_ASPECT` roughly doubles
instead of halving. -/
theorem C1_counterexample :
    ¬ ∃ aspect : ℚ, 1/2 ≤ aspect ∧ aspect ≤ 11/20 ∧
      ((canvasToASCII cvC1 oC1).height : ℤ) = ⌊(80 * 100 : ℚ) / (100 * aspect)⌋ := by
  rintro ⟨c, h1, h2, h3⟩
  have hh : (canvasToASCII cvC1 oC1).height = 40 := rfl
  rw [hh] at h3
  have hc : (0 : ℚ) < c := by linarith
  have h145 : (145 : ℚ) ≤ (80 * 100 : ℚ) / (100 * c) := by
    rw [le_div_iff (by positivity)]
    nlinarith
  have hfl : (145 : ℤ) ≤ ⌊(80 * 100 : ℚ) / (100 * c)⌋ := Int.le_floor.mpr (by push_cast; linarith)
  omega

/-- C1 amended: with only a width `W` given and aspect ratio maintained, the
output height is `floor(W * Sh / (Sw * 2))` — the source aspect is *halved*
(CHAR_ASPECT multiplies, it does not divide) — except that a computed height
of 0 falls back to `floor(W * 0.5)`; for a square source the height is
exactly `floor(W/2)`.  `calculateDimensions` uses the same formula. -/
theorem C1_amended (cv : Canvas) (o : ASCIIMapperOptions) (w : ℕ)
    (hw : o.width = some w) (hh : o.height = none)
    (hm : resolvedMaintainAspectRatio o = true) (hcw : 0 < cv.width) :
    (canvasToASCII cv o).height =
      (if w * cv.height / (cv.width * 2) = 0 then w / 2 else w * cv.height / (cv.width * 2)) ∧
    (cv.width = cv.height → (canvasToASCII cv o).height = w / 2) ∧
    (0 < w → calculateDimensions cv.width cv.height (some w) none =
      (w, w * cv.height / (cv.width * 2))) := by
  have hrw : resolvedWidth o = w := by rw [resolvedWidth, hw]; rfl
  have hth : (canvasToASCII cv o).height =
      (if w * cv.height / (cv.width * 2) = 0 then w / 2 else w * cv.height / (cv.width * 2)) := by
    show targetHeight cv o = _
    simp only [targetHeight, hrw, hm, hh, and_self, if_true]
  refine ⟨hth, ?_, ?_⟩
  · intro hsq
    rw [hth]
    rw [← hsq, Nat.mul_comm cv.width 2, Nat.mul_div_mul_right w 2 hcw]
    exact ite_self _
  · intro hw0
    simp only [calculateDimensions, truthy, Option.getD_some, Option.getD_none]
    rw [if_pos]
    simp only [ne_eq, decide_not, Bool.not_eq_true', decide_eq_false_iff_not, Decidable.not_not]
    exact ⟨by simpa using Nat.pos_iff_ne_zero.mp hw0, by simp⟩

/-- C1 witness: a 10×10 square source with `width = 2` yields height `2/2 = 1`. -/
theorem C1_witness :
    (canvasToASCII ⟨10, 10, fun _ => 0⟩ { width := some 2 }).height = 2 / 2 :=
  (C1_amended ⟨10, 10, fun _ => 0⟩ { width := some 2 } 2 rfl rfl rfl (by norm_num)).2.1 rfl

namespace ASCIIMapper

/-- `luminanceMap[y * targetWidth + x]` is the first-pass luminance of cell
`(x, y)` whenever `x` is a valid column. -/
lemma luminanceMap_flat (cv : Canvas) (o : ASCIIMapperOptions) {x y : ℕ}
    (hx : x < targetWidth cv o) :
    luminanceMap cv o (y * targetWidth cv o + x) = cellLuminance cv o x y := by
  have h0 : 0 < targetWidth cv o := lt_of_le_of_lt (Nat.zero_le x) hx
  have hm : (y * targetWidth cv o + x) % targetWidth cv o = x := by
    rw [Nat.mul_comm, Nat.mul_add_mod, Nat.mod_eq_of_lt hx]
  have hd : (y * targetWidth cv o + x) / targetWidth cv o = y := by
    rw [Nat.mul_comm, Nat.mul_add_div h0, Nat.div_eq_of_lt hx, Nat.add_zero]
  unfold luminanceMap
  rw [hm, hd]

/-- Every sampled source coordinate lies inside the canvas. -/
lemma cellBox_mem {cv : Canvas} {tw th x y : ℕ} {p : ℕ × ℕ}
    (hp : p ∈ cellBox cv tw th x y) : p.1 < cv.width ∧ p.2 < cv.height := by
  rw [cellBox, Finset.mem_product, Finset.mem_Ico, Finset.mem_Ico] at hp
  exact ⟨lt_of_lt_of_le hp.1.2 (min_le_right _ _), lt_of_lt_of_le hp.2.2 (min_le_right _ _)⟩

end ASCIIMapper

/-- C5: for any cell whose averaged alpha is below 1 the pre-normalization
luminance is composited against white by adding `255*(1-a)`; consequently a
fully transparent buffer (alpha 0 everywhere) with the default contrast, no
inversion and no edge pass maps every output cell to the ramp's last
(lightest) character. -/
theorem C5_transparency_composites_white (cv : Canvas) (o : ASCIIMapperOptions)
    (ha : ∀ px py, px < cv.width → py < cv.height → cv.pixel px py 3 = 0)
    (hc : resolvedContrast o = 1) (hi : resolvedInvert o = false)
    (he : resolvedEdgeEnhance o = false)
    (hr : resolvedCharacterSet o ≠ []) :
    (∀ tw th x y, cellA cv tw th x y < 1 →
      cellLumPre cv tw th x y =
        (0.299 * cellChan cv tw th x y 0 + 0.587 * cellChan cv tw th x y 1 +
          0.114 * cellChan cv tw th x y 2) * cellA cv tw th x y +
          255 * (1 - cellA cv tw th x y)) ∧
    (∀ x y, x < targetWidth cv o → y < targetHeight cv o →
      cellChar cv o x y = (resolvedCharacterSet o).getLast? ∧
      (resolvedCharacterSet o).getLast? ≠ none) := by
  constructor
  · intro tw th x y hA
    simp only [cellLumPre]
    rw [if_pos hA]
  · have hsum : ∀ tw th x y, cellSum cv tw th x y 3 = 0 := by
      intro tw th x y
      refine Finset.sum_eq_zero ?_
      intro p hp
      obtain ⟨h1, h2⟩ := cellBox_mem hp
      rw [ha p.1 p.2 h1 h2]
      norm_num
    have hpre : ∀ tw th x y, cellLumPre cv tw th x y = 255 := by
      intro tw th x y
      by_cases hcnt : 0 < cellCount cv tw th x y
      · have hA : cellA cv tw th x y = 0 := by
          rw [cellA, if_pos hcnt, hsum, zero_div, zero_div]
        simp only [cellLumPre, hA]
        rw [if_pos (by norm_num : (0 : ℚ) < 1)]
        ring
      · have hA : cellA cv tw th x y = 1 := by rw [cellA, if_neg hcnt]
        have hch : ∀ c, cellChan cv tw th x y c = 255 := fun c => by
          rw [cellChan, if_neg hcnt]
        simp only [cellLumPre, hA, hch]
        rw [if_neg (by norm_num : ¬ (1 : ℚ) < 1)]
        norm_num
    have hlum : ∀ x y, cellLuminance cv o x y = 1 := by
      intro x y
      simp only [cellLuminance, hpre, hc, hi]
      norm_num
    intro x y hx _hy
    have hdisp : displayLuminance cv o x y = 1 := by
      simp only [displayLuminance, he]
      rw [if_neg (by simp)]
      rw [luminanceMap_flat cv o hx, hlum]
    constructor
    · unfold cellChar
      rw [hdisp, luminanceToChar_one _ hr]
    · intro hnone
      exact hr (List.getLast?_eq_none_iff.mp (Option.eq_none_iff_forall_not_mem.mpr
        (fun a => by rw [hnone]; simp)))

/-- C5 witness: a concrete 1×1 fully transparent canvas, 2×1 output grid. -/
theorem C5_witness :
    cellChar ⟨1, 1, fun _ => 0⟩ { width := some 2, height := some 1 } 0 0 =
      (resolvedCharacterSet { width := some 2, height := some 1 }).getLast? ∧
    (resolvedCharacterSet { width := some 2, height := some 1 }).getLast? ≠ none :=
  (C5_transparency_composites_white ⟨1, 1, fun _ => 0⟩ { width := some 2, height := some 1 }
    (fun _ _ _ _ => rfl) rfl rfl rfl (by decide)).2 0 0 (by decide) (by decide)

/-- Spec-side clamp: `clamp01(v) = max(0, min(1, v))`. -/
def clamp01 (q : ℚ) : ℚ := max 0 (min 1 q)

/-- Spec-side horizontal Sobel kernel on a luminance grid `L`, written as the
standard 3×3 stencil (right column minus left column, middle rows doubled). -/
def specSobelGx (L : ℕ → ℕ → ℚ) (x y : ℕ) : ℚ :=
  (L (x + 1) (y - 1) + 2 * L (x + 1) y + L (x + 1) (y + 1)) -
    (L (x - 1) (y - 1) + 2 * L (x - 1) y + L (x - 1) (y + 1))

/-- Spec-side vertical Sobel kernel on a luminance grid `L` (bottom row minus
top row, middle columns doubled; pixel y grows downward). -/
def specSobelGy (L : ℕ → ℕ → ℚ) (x y : ℕ) : ℚ :=
  (L (x - 1) (y + 1) + 2 * L x (y + 1) + L (x + 1) (y + 1)) -
    (L (x - 1) (y - 1) + 2 * L x (y - 1) + L (x + 1) (y - 1))

/-- C6: with edge enhancement on, every interior cell displays
`clamp01(raw - sqrt(gx²+gy²) * 0.5)` where the Sobel gradient is taken from
the 8 neighbors' *first-pass* luminances (`cellLuminance`, never an enhanced
value — the code's flat-index reads into `luminanceMap` resolve to exactly the
standard stencil), and every border cell is left unmodified. -/
theorem C6_edge_enhancement (cv : Canvas) (o : ASCIIMapperOptions)
    (he : resolvedEdgeEnhance o = true) (x y : ℕ)
    (hx : x < targetWidth cv o) (_hy : y < targetHeight cv o) :
    (0 < x → x < targetWidth cv o - 1 → 0 < y → y < targetHeight cv o - 1 →
      displayLuminance cv o x y =
        clamp01 (cellLuminance cv o x y -
          Rat.sqrt (specSobelGx (cellLuminance cv o) x y ^ 2 +
            specSobelGy (cellLuminance cv o) x y ^ 2) * (1/2))) ∧
    (¬ (0 < x ∧ x < targetWidth cv o - 1 ∧ 0 < y ∧ y < targetHeight cv o - 1) →
      displayLuminance cv o x y = cellLuminance cv o x y) := by
  constructor
  · intro hx0 hx1 hy0 hy1
    obtain ⟨xx, rfl⟩ : ∃ xx, x = xx + 1 := ⟨x - 1, by omega⟩
    obtain ⟨yy, rfl⟩ : ∃ yy, y = yy + 1 := ⟨y - 1, by omega⟩
    have key : ∀ r c : ℕ, c < targetWidth cv o →
        luminanceMap cv o (r * targetWidth cv o + c) = cellLuminance cv o c r :=
      fun r c h => luminanceMap_flat cv o h
    have hm1 : (yy + 1) * targetWidth cv o = yy * targetWidth cv o + targetWidth cv o := by
      ring
    have hm2 : (yy + 2) * targetWidth cv o = yy * targetWidth cv o + 2 * targetWidth cv o := by
      ring
    have i0 : (yy + 1) * targetWidth cv o + (xx + 1) - targetWidth cv o - 1 =
      yy * targetWidth cv o + xx := by omega
    have i1 : (yy + 1) * targetWidth cv o + (xx + 1) - targetWidth cv o =
      yy * targetWidth cv o + (xx + 1) := by omega
    have i2 : (yy + 1) * targetWidth cv o + (xx + 1) - targetWidth cv o + 1 =
      yy * targetWidth cv o + (xx + 2) := by omega
    have i3 : (yy + 1) * targetWidth cv o + (xx + 1) - 1 =
      (yy + 1) * targetWidth cv o + xx := by omega
    have i4 : (yy + 1) * targetWidth cv o + (xx + 1) + 1 =
      (yy + 1) * targetWidth cv o + (xx + 2) := by omega
    have i5 : (yy + 1) * targetWidth cv o + (xx + 1) + targetWidth cv o - 1 =
      (yy + 2) * targetWidth cv o + xx := by omega
    have i6 : (yy + 1) * targetWidth cv o + (xx + 1) + targetWidth cv o =
      (yy + 2) * targetWidth cv o + (xx + 1) := by omega
    have i7 : (yy + 1) * targetWidth cv o + (xx + 1) + targetWidth cv o + 1 =
      (yy + 2) * targetWidth cv o + (xx + 2) := by omega
    have hc1 : xx < targetWidth cv o := by omega
    have hc2 : xx + 1 < targetWidth cv o := by omega
    have hc3 : xx + 2 < targetWidth cv o := by omega
    simp only [displayLuminance]
    rw [if_pos ⟨he, hx0, hx1, hy0, hy1⟩]
    rw [i0, i2, i1, i3, i4, i5, i7, i6]
    rw [key yy xx hc1, key yy (xx + 1) hc2, key yy (xx + 2) hc3,
      key (yy + 1) xx hc1, key (yy + 1) (xx + 1) hc2, key (yy + 1) (xx + 2) hc3,
      key (yy + 2) xx hc1, key (yy + 2) (xx + 1) hc2, key (yy + 2) (xx + 2) hc3]
    simp only [specSobelGx, specSobelGy, Nat.add_sub_cancel, clamp01]
    have harg : ∀ l s t : ℚ, s = t →
        max 0 (min 1 (l - s * 0.5)) = max 0 (min 1 (l - t * (1/2))) := by
      intro l s t h
      rw [h]
      norm_num
    exact harg _ _ _ (congrArg Rat.sqrt (by ring))
  · intro hni
    simp only [displayLuminance]
    rw [if_neg (by rw [he]; simpa using hni)]
    exact luminanceMap_flat cv o hx

/-- Concrete canvas and options for the C6 witness. -/
def cvC6 : Canvas := ⟨3, 3, fun _ => 0⟩

/-- 3×3 output grid with edge enhancement on. -/
def oC6 : ASCIIMapperOptions := { width := some 3, height := some 3, edgeEnhance := some true }

/-- C6 witness at the interior cell (1,1) of a 3×3 grid. -/
theorem C6_witness :
    displayLuminance cvC6 oC6 1 1 =
      clamp01 (cellLuminance cvC6 oC6 1 1 -
        Rat.sqrt (specSobelGx (cellLuminance cvC6 oC6) 1 1 ^ 2 +
          specSobelGy (cellLuminance cvC6 oC6) 1 1 ^ 2) * (1/2)) :=
  (C6_edge_enhancement cvC6 oC6 rfl 1 1 (by decide) (by decide)).1
    (by decide) (by decide) (by decide) (by decide)

namespace ASCIIMapper

/-- Channel sums are non-negative. -/
lemma cellSum_nonneg (cv : Canvas) (tw th x y c : ℕ) : 0 ≤ cellSum cv tw th x y c :=
  Finset.sum_nonneg (fun p _ => by positivity)

/-- For an RGBA8 buffer each channel sum is at most `255 * sampleCount`. -/
lemma cellSum_le (cv : Canvas) (hdata : ∀ i, cv.data i ≤ 255) (tw th x y c : ℕ) :
    cellSum cv tw th x y c ≤ 255 * (cellCount cv tw th x y : ℚ) := by
  calc cellSum cv tw th x y c ≤ ∑ _p ∈ cellBox cv tw th x y, (255 : ℚ) :=
        Finset.sum_le_sum (fun p _ => by exact_mod_cast hdata _)
    _ = (cellCount cv tw th x y : ℚ) * 255 := by
        rw [Finset.sum_const, nsmul_eq_mul, cellCount]
    _ = 255 * (cellCount cv tw th x y : ℚ) := mul_comm _ _

/-- Averaged channels lie in `[0, 255]` (also on an empty rectangle). -/
lemma cellChan_bounds (cv : Canvas) (hdata : ∀ i, cv.data i ≤ 255) (tw th x y c : ℕ) :
    0 ≤ cellChan cv tw th x y c ∧ cellChan cv tw th x y c ≤ 255 := by
  unfold cellChan
  split
  · rename_i hcnt
    have hc : (0 : ℚ) < (cellCount cv tw th x y : ℚ) := by exact_mod_cast hcnt
    constructor
    · exact div_nonneg (cellSum_nonneg cv tw th x y c) (le_of_lt hc)
    · rw [div_le_iff hc]
      linarith [cellSum_le cv hdata tw th x y c]
  · exact ⟨by norm_num, le_refl _⟩

/-- The averaged alpha fraction lies in `[0, 1]` (also on an empty rectangle). -/
lemma cellA_bounds (cv : Canvas) (hdata : ∀ i, cv.data i ≤ 255) (tw th x y : ℕ) :
    0 ≤ cellA cv tw th x y ∧ cellA cv tw th x y ≤ 1 := by
  unfold cellA
  split
  · rename_i hcnt
    have hc : (0 : ℚ) < (cellCount cv tw th x y : ℚ) := by exact_mod_cast hcnt
    constructor
    · exact div_nonneg (div_nonneg (cellSum_nonneg cv tw th x y 3) (le_of_lt hc)) (by norm_num)
    · rw [div_le_one (by norm_num : (0:ℚ) < 255), div_le_iff hc]
      linarith [cellSum_le cv hdata tw th x y 3]
  · exact ⟨by norm_num, le_refl _⟩

/-- The pre-normalization luminance, compositing included, lies in `[0, 255]`. -/
lemma cellLumPre_bounds (cv : Canvas) (hdata : ∀ i, cv.data i ≤ 255) (tw th x y : ℕ) :
    0 ≤ cellLumPre cv tw th x y ∧ cellLumPre cv tw th x y ≤ 255 := by
  obtain ⟨hr0, hr1⟩ := cellChan_bounds cv hdata tw th x y 0
  obtain ⟨hg0, hg1⟩ := cellChan_bounds cv hdata tw th x y 1
  obtain ⟨hb0, hb1⟩ := cellChan_bounds cv hdata tw th x y 2
  obtain ⟨ha0, ha1⟩ := cellA_bounds cv hdata tw th x y
  have hW0 : 0 ≤ 0.299 * cellChan cv tw th x y 0 + 0.587 * cellChan cv tw th x y 1 +
      0.114 * cellChan cv tw th x y 2 := by nlinarith
  have hW1 : 0.299 * cellChan cv tw th x y 0 + 0.587 * cellChan cv tw th x y 1 +
      0.114 * cellChan cv tw th x y 2 ≤ 255 := by nlinarith
  simp only [cellLumPre]
  split
  · rename_i hlt
    constructor
    · have := mul_nonneg hW0 ha0
      nlinarith
    · nlinarith [mul_le_mul_of_nonneg_right hW1 ha0]
  · rename_i hge
    constructor
    · exact mul_nonneg hW0 ha0
    · nlinarith [mul_le_mul_of_nonneg_right hW1 ha0]

/-- Every first-pass luminance value lies in `[0, 1]`, for every combination
of contrast, invert and edge options. -/
lemma cellLuminance_bounds (cv : Canvas) (o : ASCIIMapperOptions)
    (hdata : ∀ i, cv.data i ≤ 255) (x y : ℕ) :
    0 ≤ cellLuminance cv o x y ∧ cellLuminance cv o x y ≤ 1 := by
  obtain ⟨hp0, hp1⟩ := cellLumPre_bounds cv hdata (targetWidth cv o) (targetHeight cv o) x y
  have hl20 : 0 ≤ cellLumPre cv (targetWidth cv o) (targetHeight cv o) x y / 255 :=
    div_nonneg hp0 (by norm_num)
  have hl21 : cellLumPre cv (targetWidth cv o) (targetHeight cv o) x y / 255 ≤ 1 := by
    rw [div_le_one (by norm_num : (0:ℚ) < 255)]
    exact hp1
  have hM0 : (0 : ℚ) ≤ max 0 (min 1 ((cellLumPre cv (targetWidth cv o)
      (targetHeight cv o) x y / 255 - 0.5) * resolvedContrast o + 0.5)) := le_max_left _ _
  have hM1 : max (0 : ℚ) (min 1 ((cellLumPre cv (targetWidth cv o)
      (targetHeight cv o) x y / 255 - 0.5) * resolvedContrast o + 0.5)) ≤ 1 :=
    max_le (by norm_num) (min_le_left _ _)
  simp only [cellLuminance]
  split
  · split
    · constructor <;> linarith
    · constructor <;> linarith
  · split
    · exact ⟨hM0, hM1⟩
    · exact ⟨hl20, hl21⟩

/-- Every second-pass (displayed) luminance value lies in `[0, 1]`. -/
lemma displayLuminance_bounds (cv : Canvas) (o : ASCIIMapperOptions)
    (hdata : ∀ i, cv.data i ≤ 255) (x y : ℕ) :
    0 ≤ displayLuminance cv o x y ∧ displayLuminance cv o x y ≤ 1 := by
  simp only [displayLuminance]
  split
  · exact ⟨le_max_left _ _, max_le (by norm_num) (min_le_left _ _)⟩
  · exact cellLuminance_bounds cv o hdata _ _

end ASCIIMapper

/-- C10: for any RGBA8 buffer (bytes ≤ 255) and any options, every first-pass
luminance is in [0,1], the displayed luminance is in [0,1], and for a ramp of
length ≥ 2 the computed character index is in bounds, so a real character is
emitted for every cell. -/
theorem C10_luminance_in_range_and_index_valid (cv : Canvas) (o : ASCIIMapperOptions)
    (hdata : ∀ i, cv.data i ≤ 255)
    (hlen : 2 ≤ (resolvedCharacterSet o).length) (x y : ℕ) :
    (0 ≤ cellLuminance cv o x y ∧ cellLuminance cv o x y ≤ 1) ∧
    (0 ≤ displayLuminance cv o x y ∧ displayLuminance cv o x y ≤ 1) ∧
    (0 ≤ luminanceCharIndex (displayLuminance cv o x y) (resolvedCharacterSet o) ∧
      luminanceCharIndex (displayLuminance cv o x y) (resolvedCharacterSet o) <
        (resolvedCharacterSet o).length) ∧
    ∃ c, cellChar cv o x y = some c := by
  obtain ⟨hd0, hd1⟩ := displayLuminance_bounds cv o hdata x y
  have hq : (0 : ℚ) ≤ (resolvedCharacterSet o).length - 1 := by
    have : (2 : ℚ) ≤ ((resolvedCharacterSet o).length : ℚ) := by exact_mod_cast hlen
    linarith
  have hi0 : 0 ≤ luminanceCharIndex (displayLuminance cv o x y) (resolvedCharacterSet o) :=
    le_min (Int.floor_nonneg.mpr (mul_nonneg hd0 hq)) (by omega)
  have hi1 : luminanceCharIndex (displayLuminance cv o x y) (resolvedCharacterSet o) <
      (resolvedCharacterSet o).length := by
    have := min_le_right ⌊displayLuminance cv o x y * (((resolvedCharacterSet o).length : ℚ) - 1)⌋
      (((resolvedCharacterSet o).length : ℤ) - 1)
    unfold luminanceCharIndex
    omega
  refine ⟨cellLuminance_bounds cv o hdata x y, ⟨hd0, hd1⟩, ⟨hi0, hi1⟩, ?_⟩
  have htn : (luminanceCharIndex (displayLuminance cv o x y) (resolvedCharacterSet o)).toNat <
      (resolvedCharacterSet o).length := by omega
  unfold cellChar luminanceToChar
  rw [if_neg (by omega)]
  exact ⟨_, List.get?_eq_get htn⟩

/-- C10 witness: concrete 1×1 black opaque-free buffer with default options. -/
theorem C10_witness :
    (0 ≤ cellLuminance ⟨1, 1, fun _ => 0⟩ {} 0 0 ∧ cellLuminance ⟨1, 1, fun _ => 0⟩ {} 0 0 ≤ 1) ∧
    (0 ≤ displayLuminance ⟨1, 1, fun _ => 0⟩ {} 0 0 ∧
      displayLuminance ⟨1, 1, fun _ => 0⟩ {} 0 0 ≤ 1) ∧
    (0 ≤ luminanceCharIndex (displayLuminance ⟨1, 1, fun _ => 0⟩ {} 0 0)
        (resolvedCharacterSet {}) ∧
      luminanceCharIndex (displayLuminance ⟨1, 1, fun _ => 0⟩ {} 0 0)
        (resolvedCharacterSet {}) < (resolvedCharacterSet {}).length) ∧
    ∃ c, cellChar ⟨1, 1, fun _ => 0⟩ {} 0 0 = some c :=
  C10_luminance_in_range_and_index_valid ⟨1, 1, fun _ => 0⟩ {}
    (fun _ => Nat.zero_le 255) (by decide) 0 0

namespace Ascii3D

/-- `const heavyChars = '@#%&WMB8'`. -/
def heavyChars : List Char := ['@', '#', '%', '&', 'W', 'M', 'B', '8']

/-- `const mediumChars = '*+=XO0QD'`. -/
def mediumChars : List Char := ['*', '+', '=', 'X', 'O', '0', 'Q', 'D']

/-- The light bucket: dash, colon, period, comma, apostrophe (codepoint 39),
double quote, grave accent (codepoint 96), caret. -/
def lightChars : List Char := ['-', ':', '.', ',', Char.ofNat 39, '"', Char.ofNat 96, '^']

/-- `getCharWeight` (Ascii3D lines 72–81): bucket membership, with a default
of `0.5` — the comment says "Default medium weight" but the value differs from
the medium bucket's `0.7`. -/
def getCharWeight (c : Char) : ℚ :=
  if c ∈ heavyChars then 1
  else if c ∈ mediumChars then 0.7
  else if c ∈ lightChars then 0.3
  else 0.5

/-- `const actualDepth = charDepth * (0.3 + weight * 0.7)` (line 108). -/
def actualDepth (charDepth : ℚ) (c : Char) : ℚ :=
  charDepth * (0.3 + getCharWeight c * 0.7)

end Ascii3D

open Ascii3D

/-- C3 counterexample: the character `a` is in no bucket and receives weight
0.5, which is none of the claimed values {1.0, 0.7, 0.3} (in particular not
the medium bucket's 0.7). -/
theorem C3_counterexample :
    ¬ (getCharWeight 'a' = 1 ∨ getCharWeight 'a' = 0.7 ∨ getCharWeight 'a' = 0.3) := by
  have h : getCharWeight 'a' = 0.5 := by
    unfold getCharWeight
    rw [if_neg (by decide), if_neg (by decide), if_neg (by decide)]
  rw [h]
  push_neg
  norm_num

/-- C3 amended: every glyph weight is one of {1.0, 0.7, 0.3, 0.5}; a glyph in
no bucket gets the distinct default 0.5 (not the medium bucket's 0.7); and the
effective extrusion depth computed per glyph is `baseDepth * (0.3 + weight*0.7)`. -/
theorem C3_glyph_weights (c : Char) (d : ℚ) :
    (getCharWeight c = 1 ∨ getCharWeight c = 0.7 ∨ getCharWeight c = 0.3 ∨
      getCharWeight c = 0.5) ∧
    (c ∉ heavyChars → c ∉ mediumChars → c ∉ lightChars → getCharWeight c = 0.5) ∧
    actualDepth d c = d * (0.3 + getCharWeight c * 0.7) := by
  refine ⟨?_, ?_, rfl⟩
  · unfold getCharWeight
    split_ifs <;> simp
  · intro h1 h2 h3
    unfold getCharWeight
    rw [if_neg h1, if_neg h2, if_neg h3]

/-- C3 witness: the bucket-less glyph `z` has weight 0.5 and its depth at
base 8 follows the formula. -/
theorem C3_witness :
    getCharWeight 'z' = 0.5 ∧ actualDepth 8 'z' = 8 * (0.3 + getCharWeight 'z' * 0.7) :=
  ⟨(C3_glyph_weights 'z' 8).2.1 (by decide) (by decide) (by decide),
    (C3_glyph_weights 'z' 8).2.2⟩

namespace Ascii3D

/-- `const charSpacing = 1.0`. -/
def charSpacing : ℚ := 1

/-- `const lineHeight = 1.6`. -/
def lineHeight : ℚ := 1.6

/-- A mesh added to the Scene Group: its glyph, the id of the (possibly
cached) material it shares, the construction (`geomGroup`) and id of its
box geometry, the computed extrusion depth, and its position. -/
structure Mesh3 where
  char : Char
  materialId : ℕ
  geomGroup : ℕ
  geomId : ℕ
  depth : ℚ
  x : ℚ
  y : ℚ
  z : ℚ
deriving DecidableEq

/-- The `materialCacheRef.current` map: character ↦ material id, plus the id
allocator.  It lives in a `useRef`, so it survives effect re-runs — it is
threaded from one `createASCIIText3D` call to the next. -/
structure MaterialCache where
  entries : List (Char × ℕ)
  next : ℕ
deriving DecidableEq

/-- The initial (empty) ref value `new Map()`. -/
def MaterialCache.empty : MaterialCache := ⟨[], 0⟩

/-- `materialCache.get(char)` / on miss create material + texture and
`materialCache.set(char, material)`. -/
def lookupOrAlloc (cache : MaterialCache) (c : Char) : ℕ × MaterialCache :=
  match cache.entries.lookup c with
  | some m => (m, cache)
  | none => (cache.next, ⟨(c, cache.next) :: cache.entries, cache.next + 1⟩)

/-- `actualDepth.toFixed(2)` as geometry-cache key, modelled as the integer
number of hundredths. -/
def depthKey (d : ℚ) : ℤ := round (d * 100)

/-- `geometryCache.get(depthKey)` / on miss `new THREE.BoxGeometry(...)` —
this cache is a local `Map` created afresh inside every call. -/
def geomLookupOrAlloc (entries : List (ℤ × ℕ)) (next : ℕ) (key : ℤ) :
    ℕ × List (ℤ × ℕ) × ℕ :=
  match entries.lookup key with
  | some g => (g, entries, next)
  | none => (next, (key, next) :: entries, next + 1)

/-- Accumulator of the nested `lines.forEach` / `for charIndex` loops. -/
structure BuildAcc where
  meshes : List Mesh3
  mat : MaterialCache
  geomEntries : List (ℤ × ℕ)
  geomNext : ℕ

/-- One iteration of the character loop (Ascii3D lines 102–178): skip spaces;
compute weight and depth; reuse or create a material keyed by the character
alone; reuse or create a geometry keyed by the quantized depth; add the
positioned mesh.  The cell is `(lineIndex, lineLength, charIndex, char)` and
the geometry is tagged with `gen`, the construction that created it. -/
def buildStep (gen numLines : ℕ) (charDepth : ℚ) (acc : BuildAcc)
    (cell : ℕ × ℕ × ℕ × Char) : BuildAcc :=
  if cell.2.2.2 = ' ' then acc else
  let aDepth := actualDepth charDepth cell.2.2.2
  let ma := lookupOrAlloc acc.mat cell.2.2.2
  let ge := geomLookupOrAlloc acc.geomEntries acc.geomNext (depthKey aDepth)
  { meshes := acc.meshes ++ [{
      char := cell.2.2.2, materialId := ma.1, geomGroup := gen, geomId := ge.1,
      depth := aDepth,
      x := ((cell.2.2.1 : ℚ) - (cell.2.1 : ℚ) / 2) * charSpacing,
      y := ((numLines : ℚ) / 2 - (cell.1 : ℚ)) * lineHeight,
      z := (getCharWeight cell.2.2.2 - 0.5) * charDepth * 0.2 }],
    mat := ma.2, geomEntries := ge.2.1, geomNext := ge.2.2 }

/-- JS `asciiText.split('\n')` on the character list. -/
def splitLines : List Char → List (List Char)
  | [] => [[]]
  | c :: rest =>
    if c = '\n' then [] :: splitLines rest
    else
      match splitLines rest with
      | [] => [[c]]
      | l :: ls => (c :: l) :: ls

/-- The `(lineIndex, lineLength, charIndex, char)` cells visited by the two
nested loops, in order. -/
def cellsOf (lines : List (List Char)) : List (ℕ × ℕ × ℕ × Char) :=
  lines.enum.flatMap (fun li => li.2.enum.map (fun ci => (li.1, li.2.length, ci.1, ci.2)))

/-- `createASCIIText3D` (Ascii3D lines 84–182): split into non-empty lines,
then run the loops against the *incoming* material cache (the ref's current
value) and a fresh local geometry cache; returns the group's meshes and the
updated material cache that stays in the ref. -/
def createASCIIText3D (gen : ℕ) (asciiText : String) (charDepth : ℚ)
    (cache : MaterialCache) : List Mesh3 × MaterialCache :=
  let lines := (splitLines asciiText.data).filter (fun l => 0 < l.length)
  let acc := (cellsOf lines).foldl (buildStep gen lines.length charDepth)
    ⟨[], cache, [], 0⟩
  (acc.meshes, acc.mat)

/-- A GPU resource: materials and textures are identified by the material
cache id (each material is created together with its canvas texture);
geometries are identified by the construction that created them plus their
local id. -/
inductive Resource
  | material (id : ℕ)
  | texture (id : ℕ)
  | geometry (group id : ℕ)
deriving DecidableEq

/-- The effect cleanup (Ascii3D lines 346–353): traverse the group and call
`child.geometry.dispose()` on every mesh — geometries only; no material and
no texture is ever disposed, and `materialCacheRef` is not cleared. -/
def cleanupReleased (meshes : List Mesh3) : List Resource :=
  meshes.map (fun m => Resource.geometry m.geomGroup m.geomId)

end Ascii3D

namespace Ascii3D

/-- Fold invariant for `createASCIIText3D`: every produced mesh carries this
construction's `gen` tag on its geometry, a character already bound in the
incoming material cache keeps its cached material id, and existing cache
bindings are never overwritten by the loop. -/
lemma buildFold_invariant (gen numLines : ℕ) (d : ℚ) (cache0 : MaterialCache)
    (cells : List (ℕ × ℕ × ℕ × Char)) (acc : BuildAcc)
    (hmesh : ∀ m ∈ acc.meshes, m.geomGroup = gen ∧
      ∀ i, cache0.entries.lookup m.char = some i → m.materialId = i)
    (hmono : ∀ a i, cache0.entries.lookup a = some i →
      acc.mat.entries.lookup a = some i) :
    (∀ m ∈ (cells.foldl (buildStep gen numLines d) acc).meshes, m.geomGroup = gen ∧
      ∀ i, cache0.entries.lookup m.char = some i → m.materialId = i) ∧
    (∀ a i, cache0.entries.lookup a = some i →
      (cells.foldl (buildStep gen numLines d) acc).mat.entries.lookup a = some i) := by
  induction cells generalizing acc with
  | nil => exact ⟨hmesh, hmono⟩
  | cons cell rest ih =>
    rw [List.foldl_cons]
    apply ih
    · intro m hm
      by_cases hsp : cell.2.2.2 = ' '
      · simp only [buildStep, if_pos hsp] at hm
        exact hmesh m hm
      · simp only [buildStep, if_neg hsp] at hm
        rcases List.mem_append.mp hm with hold | hnew
        · exact hmesh m hold
        · rw [List.mem_singleton] at hnew
          subst hnew
          refine ⟨rfl, ?_⟩
          intro i hi
          have hacc := hmono _ _ hi
          show (lookupOrAlloc acc.mat cell.2.2.2).1 = i
          unfold lookupOrAlloc
          rw [hacc]
    · intro a i hi
      by_cases hsp : cell.2.2.2 = ' '
      · simp only [buildStep, if_pos hsp]
        exact hmono a i hi
      · simp only [buildStep, if_neg hsp]
        have hacc := hmono a i hi
        show (lookupOrAlloc acc.mat cell.2.2.2).2.entries.lookup a = some i
        unfold lookupOrAlloc
        cases hl : acc.mat.entries.lookup cell.2.2.2 with
        | some m => exact hacc
        | none =>
          have hne : (a == cell.2.2.2) = false := by
            rw [beq_eq_false_iff_ne]
            intro heq
            rw [heq, hl] at hacc
            exact Option.noConfusion hacc
          show List.lookup a ((cell.2.2.2, acc.mat.next) :: acc.mat.entries) = some i
          rw [List.lookup_cons, hne]
          exact hacc

end Ascii3D

/-- C4 counterexample: the material cache lives in a ref and survives into
the next Scene Group construction — the second group (different depth) reuses
material id 0 created by the first group — and disposal releases no material
and no texture (only geometries), refuting both halves of the claim. -/
theorem C4_counterexample :
    ((createASCIIText3D 0 "@" 8 MaterialCache.empty).1.map Mesh3.materialId = [0]) ∧
    ((createASCIIText3D 0 "@" 8 MaterialCache.empty).2.entries = [('@', 0)]) ∧
    ((createASCIIText3D 1 "@" 16
        (createASCIIText3D 0 "@" 8 MaterialCache.empty).2).1.map Mesh3.materialId = [0]) ∧
    Resource.material 0 ∉ cleanupReleased (createASCIIText3D 0 "@" 8 MaterialCache.empty).1 ∧
    Resource.texture 0 ∉ cleanupReleased (createASCIIText3D 0 "@" 8 MaterialCache.empty).1 := by
  refine ⟨by decide, by decide, by decide, by decide, by decide⟩

/-- C4 amended: the *geometry* cache is per-construction — every geometry of
a group is tagged with that construction and disposal releases exactly the
group's geometries — but no material or texture is ever released, and the
material cache persists: a character bound in the incoming cache is reused
(same material id) by the new group. -/
theorem C4_cache_and_disposal (gen : ℕ) (asciiText : String) (d : ℚ)
    (cache : MaterialCache) :
    (∀ m ∈ (createASCIIText3D gen asciiText d cache).1, m.geomGroup = gen) ∧
    (∀ m ∈ (createASCIIText3D gen asciiText d cache).1,
      Resource.geometry m.geomGroup m.geomId ∈
        cleanupReleased (createASCIIText3D gen asciiText d cache).1) ∧
    (∀ i, Resource.material i ∉ cleanupReleased (createASCIIText3D gen asciiText d cache).1 ∧
      Resource.texture i ∉ cleanupReleased (createASCIIText3D gen asciiText d cache).1) ∧
    (∀ m ∈ (createASCIIText3D gen asciiText d cache).1, ∀ i,
      cache.entries.lookup m.char = some i → m.materialId = i) := by
  have hinv := buildFold_invariant gen
    (((splitLines asciiText.data).filter (fun l => 0 < l.length)).length) d cache
    (cellsOf ((splitLines asciiText.data).filter (fun l => 0 < l.length)))
    ⟨[], cache, [], 0⟩
    (by intro m hm; exact absurd hm (List.not_mem_nil m))
    (fun a i h => h)
  refine ⟨fun m hm => (hinv.1 m hm).1, ?_, ?_, fun m hm => (hinv.1 m hm).2⟩
  · intro m hm
    exact List.mem_map.mpr ⟨m, hm, rfl⟩
  · intro i
    constructor
    · intro hmem
      rcases List.mem_map.mp hmem with ⟨m, _, heq⟩
      exact Resource.noConfusion heq
    · intro hmem
      rcases List.mem_map.mp hmem with ⟨m, _, heq⟩
      exact Resource.noConfusion heq

/-- C4 witness: a concrete single-glyph build. -/
theorem C4_witness :
    (∀ m ∈ (createASCIIText3D 2 "&" 4 MaterialCache.empty).1, m.geomGroup = 2) ∧
    (∀ i, Resource.material i ∉
        cleanupReleased (createASCIIText3D 2 "&" 4 MaterialCache.empty).1 ∧
      Resource.texture i ∉
        cleanupReleased (createASCIIText3D 2 "&" 4 MaterialCache.empty).1) :=
  ⟨(C4_cache_and_disposal 2 "&" 4 MaterialCache.empty).1,
    (C4_cache_and_disposal 2 "&" 4 MaterialCache.empty).2.2.1⟩

namespace GeometryBuilder

/-- One point of the cloud: position and normalized RGB color. -/
structure Point3 where
  px : ℚ
  py : ℚ
  pz : ℚ
  cr : ℚ
  cg : ℚ
  cb : ℚ
deriving DecidableEq

/-- `const step = Math.max(1, Math.floor(1 / asciiDensity))`. -/
def sampleStep (density : ℚ) : ℕ := (max 1 ⌊1 / density⌋).toNat

/-- The coordinates visited by `for (v = 0; v < n; v += step)`. -/
def sampledCoords (n step : ℕ) : List ℕ :=
  (List.range ((n + step - 1) / step)).map (fun k => k * step)

/-- The point pushed for a visible pixel (geometryBuilder lines 264–278):
position centered and scaled by 0.1, Y flipped, Z from luminance times depth;
color is the normalized RGB triple. -/
def pointAt (cv : Canvas) (depth : ℚ) (x y : ℕ) : Point3 :=
  { px := ((x : ℚ) - (cv.width : ℚ) / 2) * 0.1,
    py := -(((y : ℚ) - (cv.height : ℚ) / 2)) * 0.1,
    pz := (0.299 * (cv.pixel x y 0 : ℚ) + 0.587 * (cv.pixel x y 1 : ℚ) +
      0.114 * (cv.pixel x y 2 : ℚ)) / 255 * depth,
    cr := (cv.pixel x y 0 : ℚ) / 255,
    cg := (cv.pixel x y 1 : ℚ) / 255,
    cb := (cv.pixel x y 2 : ℚ) / 255 }

/-- `GeometryBuilder.createASCIIPoints` (lines 230–295): stride over both
axes, keep pixels with alpha above 128. -/
def createASCIIPoints (cv : Canvas) (depth density : ℚ) : List Point3 :=
  (sampledCoords cv.height (sampleStep density)).flatMap (fun y =>
    (sampledCoords cv.width (sampleStep density)).flatMap (fun x =>
      if 128 < cv.pixel x y 3 then [pointAt cv depth x y] else []))

/-- Every visited coordinate is inside the canvas dimension. -/
lemma sampled_lt {n step k : ℕ} (hs : 0 < step) (hk : k ∈ sampledCoords n step) :
    k < n := by
  obtain ⟨j, hj, rfl⟩ : ∃ j, j ∈ List.range ((n + step - 1) / step) ∧ j * step = k := by
    simpa [sampledCoords] using hk
  rw [List.mem_range] at hj
  have h1 : j + 1 ≤ (n + step - 1) / step := hj
  have h2 : (j + 1) * step ≤ n + step - 1 := (Nat.le_div_iff_mul_le hs).mp h1
  have h3 : (j + 1) * step = j * step + step := by ring
  omega

/-- The visited-coordinate count is `ceil(n / step)`. -/
lemma sampledCoords_length (n step : ℕ) :
    (sampledCoords n step).length = (n + step - 1) / step := by
  simp [sampledCoords]

end GeometryBuilder

open GeometryBuilder

/-- C8: the point cloud samples at stride `max(1, floor(1/density))` on both
axes; a point is emitted exactly for the visited pixels whose alpha exceeds
128 (the above-50% threshold) with the stated centered/flipped/scaled position
and normalized color; on a fully opaque buffer, density 1 emits one point per
pixel, density 1/2 about a quarter (`ceil(w/2)*ceil(h/2)`). -/
theorem C8_point_cloud_sampling (cv : Canvas) (depth : ℚ) :
    (∀ density : ℚ, ∀ p ∈ createASCIIPoints cv depth density,
      ∃ x ∈ sampledCoords cv.width (sampleStep density),
        ∃ y ∈ sampledCoords cv.height (sampleStep density),
          128 < cv.pixel x y 3 ∧
          p.px = ((x : ℚ) - (cv.width : ℚ) / 2) * 0.1 ∧
          p.py = -(((y : ℚ) - (cv.height : ℚ) / 2)) * 0.1 ∧
          p.pz = (0.299 * (cv.pixel x y 0 : ℚ) + 0.587 * (cv.pixel x y 1 : ℚ) +
            0.114 * (cv.pixel x y 2 : ℚ)) / 255 * depth ∧
          p.cr = (cv.pixel x y 0 : ℚ) / 255 ∧ p.cg = (cv.pixel x y 1 : ℚ) / 255 ∧
          p.cb = (cv.pixel x y 2 : ℚ) / 255) ∧
    (∀ density : ℚ, ∀ x ∈ sampledCoords cv.width (sampleStep density),
      ∀ y ∈ sampledCoords cv.height (sampleStep density),
        128 < cv.pixel x y 3 →
          pointAt cv depth x y ∈ createASCIIPoints cv depth density) ∧
    ((∀ x y, x < cv.width → y < cv.height → cv.pixel x y 3 = 255) →
      (createASCIIPoints cv depth 1).length = cv.width * cv.height ∧
      (createASCIIPoints cv depth (1/2)).length =
        ((cv.width + 1) / 2) * ((cv.height + 1) / 2)) := by
  refine ⟨?_, ?_, ?_⟩
  · intro density p hp
    simp only [createASCIIPoints] at hp
    obtain ⟨y, hy, hp⟩ := List.mem_flatMap.mp hp
    obtain ⟨x, hx, hp⟩ := List.mem_flatMap.mp hp
    by_cases h128 : 128 < cv.pixel x y 3
    · rw [if_pos h128, List.mem_singleton] at hp
      subst hp
      exact ⟨x, hx, y, hy, h128, rfl, rfl, rfl, rfl, rfl, rfl⟩
    · rw [if_neg h128] at hp
      exact absurd hp (List.not_mem_nil p)
  · intro density x hx y hy h128
    simp only [createASCIIPoints]
    exact List.mem_flatMap.mpr ⟨y, hy, List.mem_flatMap.mpr
      ⟨x, hx, by rw [if_pos h128]; exact List.mem_singleton.mpr rfl⟩⟩
  · intro hOp
    have hlen : ∀ s : ℕ, 0 < s →
        ((sampledCoords cv.height s).flatMap (fun y =>
          (sampledCoords cv.width s).flatMap (fun x =>
            if 128 < cv.pixel x y 3 then [pointAt cv depth x y] else []))).length =
        ((cv.width + s - 1) / s) * ((cv.height + s - 1) / s) := by
      intro s hs
      have hrow : ∀ y ∈ sampledCoords cv.height s,
          ((sampledCoords cv.width s).flatMap (fun x =>
            if 128 < cv.pixel x y 3 then [pointAt cv depth x y] else [])).length =
          (cv.width + s - 1) / s := by
        intro y hy
        rw [List.length_flatMap]
        have hone : ∀ x ∈ sampledCoords cv.width s,
            (if 128 < cv.pixel x y 3 then [pointAt cv depth x y] else []).length = 1 := by
          intro x hx
          rw [if_pos (by rw [hOp x y (sampled_lt hs hx) (sampled_lt hs hy)]; norm_num)]
          rfl
        simp only [Function.comp_def]
        rw [List.map_congr_left hone]
        simp [sampledCoords_length]
      rw [List.length_flatMap]
      simp only [Function.comp_def]
      rw [List.map_congr_left hrow]
      simp [sampledCoords_length, Nat.mul_comm]
    have hs1 : sampleStep 1 = 1 := by
      unfold sampleStep
      norm_num
    have hs2 : sampleStep (1/2) = 2 := by
      unfold sampleStep
      norm_num
      rfl
    constructor
    · show ((sampledCoords cv.height (sampleStep 1)).flatMap _).length = _
      rw [hs1, hlen 1 (by norm_num)]
      congr 1 <;> omega
    · show ((sampledCoords cv.height (sampleStep (1/2))).flatMap _).length = _
      rw [hs2, hlen 2 (by norm_num)]
      congr 1 <;> omega

/-- Fully opaque 2×2 buffer for the C8 witness. -/
def cvC8 : Canvas := ⟨2, 2, fun _ => 255⟩

/-- C8 witness: on the fully opaque 2×2 buffer, density 1 gives 4 points and
density 1/2 gives 1. -/
theorem C8_witness :
    (createASCIIPoints cvC8 10 1).length = cvC8.width * cvC8.height ∧
    (createASCIIPoints cvC8 10 (1/2)).length =
      ((cvC8.width + 1) / 2) * ((cvC8.height + 1) / 2) :=
  (C8_point_cloud_sampling cvC8 10).2.2 (fun _ _ _ _ => rfl)
